import Mathlib

/-!
Shallow embedding of `demcmc/emission.py`: contribution functions
(`ContFuncGaussian`, `ContFuncDiscrete`), emission lines and the predicted
intensity computation `EmissionLine.I_pred`.

Numeric modelling: stored data (temperatures, tabulated contribution values,
bin edges) is modelled with `ℚ` (finite floating point inputs), while the
Gaussian profile and the intensity integral, which involve `Real.exp`, live
in `ℝ`.  astropy units are modelled by a dimension vector `Dim` (exponents of
cm and K); a NaN produced by pandas for an empty group is modelled as
`Option.none`.  Exceptions are modelled with `Except` and structured error
types.
-/

/-- Physical dimension as exponents of the two base units that occur in the
code: centimetres and kelvin.  A contribution-function value has dimension
cm⁵/K, i.e. `⟨5, -1⟩`. -/
structure Dim where
  cm : ℤ
  kelvin : ℤ
deriving DecidableEq, Repr

/-- Dimension of a product of two quantities: exponents add. -/
def Dim.add (a b : Dim) : Dim := ⟨a.cm + b.cm, a.kelvin + b.kelvin⟩

/-- The dimensionless dimension. -/
def dimensionless : Dim := ⟨0, 0⟩

/-- Dimension of a contribution-function value, cm⁵/K. -/
def cm5_per_K : Dim := ⟨5, -1⟩

/-- Dimension of a temperature, K. -/
def dim_K : Dim := ⟨0, 1⟩

/-- Modelled from the spec: the external `TempBins` grid (from `demcmc.dem`,
not under `src/`) exposes `edges` (N+1 monotonically ordered temperature
boundaries, here in kelvin), with `bin_centers` and `bin_widths` derivable
from the edges. -/
structure TempBins where
  edges : List ℚ
  edges_sorted : edges.Chain' (· < ·)

/-- Number of bins of the grid: one fewer than the number of edges. -/
def TempBins.numBins (tb : TempBins) : Nat := tb.edges.length - 1

/-- Lower edge of bin `k` (kelvin). -/
def TempBins.edgeLo (tb : TempBins) (k : Nat) : ℚ := tb.edges.getD k 0

/-- Upper edge of bin `k` (kelvin). -/
def TempBins.edgeHi (tb : TempBins) (k : Nat) : ℚ := tb.edges.getD (k + 1) 0

/-- Modelled from the spec: `bin_centers`, the midpoint of each bin
(kelvin), derivable from the edges. -/
def TempBins.bin_centers (tb : TempBins) : List ℚ :=
  (List.range tb.numBins).map (fun k => (tb.edgeLo k + tb.edgeHi k) / 2)

/-- Modelled from the spec: `bin_widths`, the extent of each bin (kelvin),
derivable from the edges. -/
def TempBins.bin_widths (tb : TempBins) : List ℚ :=
  (List.range tb.numBins).map (fun k => tb.edgeHi k - tb.edgeLo k)

/-- Membership of a sample temperature `t` in bin `k` of the grid, as
assigned by `pd.cut(..., include_lowest=True)` in
`ContFuncDiscrete.binned`: the half-open interval `(edge_k, edge_(k+1)]`,
with the lowest bin closed on both ends. -/
def TempBins.inBin (tb : TempBins) (k : Nat) (t : ℚ) : Bool :=
  (if k = 0 then decide (tb.edgeLo k ≤ t) else decide (tb.edgeLo k < t))
    && decide (t ≤ tb.edgeHi k)

/-- An n-dimensional numeric numpy/astropy array as passed to the
`ContFuncDiscrete` constructor: a shape together with the flat data.
`ndim` and `size` are as in numpy. -/
structure NDQuantity where
  shape : List Nat
  data : List ℚ
deriving DecidableEq, Repr

/-- numpy `ndim`: number of axes. -/
def NDQuantity.ndim (a : NDQuantity) : Nat := a.shape.length

/-- numpy `size`: total number of elements. -/
def NDQuantity.size (a : NDQuantity) : Nat := a.shape.prod

/-- The construction-time validation failures of `ContFuncDiscrete.__init__`
(each is a `ValueError` in the source). -/
inductive CtorError where
  | tempsNot1D
  | valuesNot1D
  | sizeMismatch
deriving DecidableEq, Repr

/-- `ContFuncDiscrete`: a pre-computed contribution function defined at
temperature values.  `temps` holds the sample temperatures (kelvin) and
`values` the tabulated contribution values (cm⁵/K); after the constructor's
validation both are 1-D and length-matched, so they are stored flat. -/
structure ContFuncDiscrete where
  temps : List ℚ
  values : List ℚ
deriving DecidableEq, Repr

/-- `ContFuncDiscrete.__init__`: fails if `temps` is not 1-D, if `values`
is not 1-D, or if their sizes differ (in that order); otherwise stores the
two arrays unchanged. -/
def mkContFuncDiscrete (temps values : NDQuantity) :
    Except CtorError ContFuncDiscrete :=
  if temps.ndim ≠ 1 then .error .tempsNot1D
  else if values.ndim ≠ 1 then .error .valuesNot1D
  else if temps.size ≠ values.size then .error .sizeMismatch
  else .ok ⟨temps.data, values.data⟩

/-- The failure raised by `ContFuncDiscrete._check_bin_edges`: a
`ValueError` whose message lists every bin edge missing from the sample
temperatures. -/
inductive BinError where
  | missingEdges (ts : List ℚ)
deriving DecidableEq, Repr

/-- `ContFuncDiscrete._check_bin_edges`'s `missing_ts` list: the bin edges
of the grid that do not occur among the sample temperatures, collected in
edge order. -/
def ContFuncDiscrete.missing_ts (cf : ContFuncDiscrete) (tb : TempBins) :
    List ℚ :=
  tb.edges.filter (fun t => decide (t ∉ cf.temps))

/-- The sample points (with their tabulated values) falling in bin `k` of
the grid, in sample order: the rows of the pandas frame that `pd.cut`
assigns to group `k`. -/
def ContFuncDiscrete.samplesIn (cf : ContFuncDiscrete) (tb : TempBins)
    (k : Nat) : List (ℚ × ℚ) :=
  (cf.temps.zip cf.values).filter (fun p => tb.inBin k p.1)

/-- The per-bin group means computed by
`df.groupby("Groups").mean()` in `ContFuncDiscrete.binned`: for each bin of
the grid, the arithmetic mean of the values whose sample temperature falls
in the bin, or `none` (pandas NaN) for an empty group. -/
def ContFuncDiscrete.binMeans (cf : ContFuncDiscrete) (tb : TempBins) :
    List (Option ℚ) :=
  (List.range tb.numBins).map (fun k =>
    let s := cf.samplesIn tb k
    if s.length = 0 then none
    else some ((s.map Prod.snd).sum / (s.length : ℚ)))

/-- `ContFuncDiscrete.binned`: first `_check_bin_edges` (fail when any edge
is missing from `temps`, reporting every missing edge), then the per-bin
group means. -/
def ContFuncDiscrete.binned (cf : ContFuncDiscrete) (tb : TempBins) :
    Except BinError (List (Option ℚ)) :=
  if cf.missing_ts tb = [] then .ok (cf.binMeans tb)
  else .error (.missingEdges (cf.missing_ts tb))

/-- `ContFuncGaussian`: a contribution function with a Gaussian profile,
stored by its `center` and `width` temperatures (kelvin). -/
structure ContFuncGaussian where
  center : ℚ
  width : ℚ
deriving DecidableEq, Repr

/-- The precomputed `_center_MK`: the center converted to megakelvin. -/
def ContFuncGaussian.center_MK (g : ContFuncGaussian) : ℚ :=
  g.center / 1000000

/-- The precomputed `_width_MK`: the width converted to megakelvin. -/
def ContFuncGaussian.width_MK (g : ContFuncGaussian) : ℚ :=
  g.width / 1000000

/-- The Gaussian profile evaluated at one bin center (given in kelvin):
`exp(-(((center_MK - c_MK) / width_MK))²) * 1e6` in cm⁵/K. -/
noncomputable def ContFuncGaussian.evalAt (g : ContFuncGaussian)
    (c : ℚ) : ℝ :=
  Real.exp (-(((g.center_MK - c / 1000000) / g.width_MK : ℚ) : ℝ) ^ 2)
    * 1000000

/-- `ContFuncGaussian.binned`: the Gaussian profile sampled at every bin
center of the grid. -/
noncomputable def ContFuncGaussian.binned (g : ContFuncGaussian)
    (tb : TempBins) : List ℝ :=
  tb.bin_centers.map (fun c => g.evalAt c)

/-- The closed set of contribution-function variants (`ContFunc` abstract
base class with its two implementations). -/
inductive ContFunc where
  | gaussian (g : ContFuncGaussian)
  | discrete (d : ContFuncDiscrete)

/-- An astropy `Quantity` array as returned by `binned`: a physical
dimension together with per-bin values, `none` standing for NaN. -/
structure Quantity where
  dim : Dim
  vals : List (Option ℝ)

/-- Polymorphic `ContFunc.binned` dispatch: the Gaussian variant never
fails and produces cm⁵/K values; the discrete variant may fail on missing
edges and produces cm⁵/K values (NaN for empty bins). -/
noncomputable def ContFunc.binned : ContFunc → TempBins →
    Except BinError Quantity
  | .gaussian g, tb => .ok ⟨cm5_per_K, (g.binned tb).map some⟩
  | .discrete d, tb =>
      (d.binned tb).map
        (fun l => ⟨cm5_per_K, l.map (fun o => o.map (fun q => (q : ℝ)))⟩)

/-- Modelled from the spec: the external `BinnedDEM` (from `demcmc.dem`,
not under `src/`) exposes `temp_bins` and `values`, N unit-bearing DEM
magnitudes aligned with the grid's bins. -/
structure BinnedDEM where
  temp_bins : TempBins
  values_dim : Dim
  values : List ℝ

/-- `EmissionLine`: couples a contribution function with the passive
observed intensity and its uncertainty. -/
structure EmissionLine where
  cont_func : ContFunc
  intensity_obs : Option ℚ := none
  sigma_intensity_obs : Option ℚ := none

/-- The failures of `EmissionLine.I_pred`: a propagated contribution
function failure, a numpy broadcast failure on mismatched lengths, or an
astropy unit-conversion failure when the summed product is not
dimensionless. -/
inductive IPredError where
  | contFuncFailure (e : BinError)
  | broadcastMismatch
  | notDimensionless (d : Dim)
deriving DecidableEq, Repr

/-- Sum of per-bin values with NaN propagation: `none` when any summand is
NaN, as for `np.sum` over floats. -/
def optSum : List (Option ℝ) → Option ℝ
  | [] => some 0
  | x :: xs => do
      let a ← x
      let b ← optSum xs
      pure (a + b)

/-- `EmissionLine.I_pred`: bin the line's contribution function onto the
DEM's grid, sum the elementwise product (contribution × DEM value × bin
width) over all bins, and convert the sum to a dimensionless scalar,
failing when the dimensions do not cancel. -/
noncomputable def EmissionLine.I_pred (line : EmissionLine)
    (dem : BinnedDEM) : Except IPredError (Option ℝ) :=
  match line.cont_func.binned dem.temp_bins with
  | .error e => .error (.contFuncFailure e)
  | .ok cf =>
      let w := dem.temp_bins.bin_widths
      if cf.vals.length = dem.values.length ∧ dem.values.length = w.length
      then
        let dtot := (cf.dim.add dem.values_dim).add dim_K
        if dtot = dimensionless then
          .ok (optSum (List.zipWith3
            (fun (c : Option ℝ) (d : ℝ) (wk : ℚ) =>
              Option.map (fun cv => cv * d * (wk : ℝ)) c)
            cf.vals dem.values w))
        else .error (.notDimensionless dtot)
      else .error .broadcastMismatch

/-- `LineCollection`: an ordered aggregate of emission lines with no
behaviour of its own. -/
structure LineCollection where
  lines : List EmissionLine

/-- A method call on a contribution function, modelled with explicit state
passing: the result together with the instance after the call.  `binned`
mutates nothing, so the instance is returned unchanged. -/
noncomputable def ContFunc.binnedCall (cf : ContFunc) (tb : TempBins) :
    Except BinError Quantity × ContFunc :=
  (cf.binned tb, cf)

/-- A call of `I_pred`, modelled with explicit state passing: the result
together with the line after the call.  `I_pred` mutates nothing, so the
line is returned unchanged. -/
noncomputable def EmissionLine.I_predCall (line : EmissionLine)
    (dem : BinnedDEM) : Except IPredError (Option ℝ) × EmissionLine :=
  (line.I_pred dem, line)

deriving instance DecidableEq for Except

/-- The spec's worked example: a discrete contribution function with
`temps = [1,2,3,4,5]` K and `values = [10,20,30,40,50]` cm⁵/K. -/
def exampleContFunc : ContFuncDiscrete := ⟨[1, 2, 3, 4, 5], [10, 20, 30, 40, 50]⟩

/-- The spec's worked example grid with edges `[1, 3, 5]` K. -/
def exampleBins : TempBins := ⟨[1, 3, 5], by norm_num [List.chain'_cons]⟩

/-- A grid with edges `[1, 5/2, 5]` K: the middle edge is absent from
`exampleContFunc.temps`. -/
def exampleBinsMissing : TempBins := ⟨[1, 5/2, 5], by norm_num [List.chain'_cons]⟩

/-- The Gaussian instance used as a concrete witness: center 2 K,
width 1 K. -/
def exampleGaussian : ContFuncGaussian := ⟨2, 1⟩

/-- A single-bin grid with edges `[1, 3]` K, whose bin center is 2 K. -/
def exampleGaussianBins : TempBins := ⟨[1, 3], by norm_num [List.chain'_cons]⟩

/-- A single-bin grid with edges `[1, 2]` K, of bin width 1 K. -/
def uniformBins : TempBins := ⟨[1, 2], by norm_num [List.chain'_cons]⟩

/-- A discrete contribution function that is constant (5 cm⁵/K) on the
single bin of `uniformBins`. -/
def uniformContFunc : ContFuncDiscrete := ⟨[1, 2], [5, 5]⟩

/-- An emission line holding `uniformContFunc`. -/
def uniformLine : EmissionLine := ⟨.discrete uniformContFunc, none, none⟩

/-- A DEM on `uniformBins` with the single value 2 of dimension cm⁻⁵, so
the intensity integrand reduces to dimensionless. -/
def uniformDEM : BinnedDEM := ⟨uniformBins, ⟨-5, 0⟩, [2]⟩

/-- A DEM like `uniformDEM` whose values are dimensionless, so the
integrand does not reduce to dimensionless. -/
def badUnitDEM : BinnedDEM := ⟨uniformBins, dimensionless, [2]⟩

/-- Helper: the per-bin means list has exactly one entry per bin. -/
theorem ContFuncDiscrete.binMeans_length (cf : ContFuncDiscrete)
    (tb : TempBins) : (cf.binMeans tb).length = tb.numBins := by
  simp [ContFuncDiscrete.binMeans]

/-- Helper: entry `k` of the per-bin means list. -/
theorem ContFuncDiscrete.binMeans_getD (cf : ContFuncDiscrete)
    (tb : TempBins) (k : Nat) (hk : k < tb.numBins) :
    (cf.binMeans tb).getD k none =
      (if (cf.samplesIn tb k).length = 0 then none
       else some (((cf.samplesIn tb k).map Prod.snd).sum /
         ((cf.samplesIn tb k).length : ℚ))) := by
  have hlen : k < (cf.binMeans tb).length := by
    rw [cf.binMeans_length tb]; exact hk
  rw [List.getD_eq_getElem _ _ hlen]
  simp [ContFuncDiscrete.binMeans, hk]

/-- Helper: when every edge occurs among the sample temperatures, the
missing-edge list is empty and `binned` returns the per-bin means. -/
theorem ContFuncDiscrete.binned_of_edges_present (cf : ContFuncDiscrete)
    (tb : TempBins) (h : ∀ e ∈ tb.edges, e ∈ cf.temps) :
    cf.binned tb = .ok (cf.binMeans tb) := by
  have hmiss : cf.missing_ts tb = [] := by
    unfold ContFuncDiscrete.missing_ts
    rw [List.filter_eq_nil_iff]
    intro a ha
    simp [h a ha]
  simp [ContFuncDiscrete.binned, hmiss]

/-- C2: for every discrete contribution function whose sample temperatures
contain all the target bin edges, `binned` succeeds, assigns each sample
point to the half-open interval `(edge_k, edge_(k+1)]` it falls into (with
the lowest bin closed on both ends), and returns for each bin the
arithmetic mean of the values whose sample point falls in that bin; on the
spec's worked example the output is `[20, 45]`. -/
theorem demcmc_C2_discrete_binned_is_binwise_mean :
    (∀ (cf : ContFuncDiscrete) (tb : TempBins),
      (∀ e ∈ tb.edges, e ∈ cf.temps) →
      cf.binned tb = .ok (cf.binMeans tb) ∧
      ∀ k, k < tb.numBins →
        (cf.samplesIn tb k ≠ [] →
          (cf.binMeans tb).getD k none =
            some (((cf.samplesIn tb k).map Prod.snd).sum /
              ((cf.samplesIn tb k).length : ℚ))) ∧
        ∀ p : ℚ × ℚ, p ∈ cf.samplesIn tb k ↔
          (p ∈ cf.temps.zip cf.values ∧
            (if k = 0 then tb.edgeLo k ≤ p.1 else tb.edgeLo k < p.1) ∧
            p.1 ≤ tb.edgeHi k)) ∧
    exampleContFunc.binned exampleBins = .ok [some 20, some 45] := by
  constructor
  · intro cf tb hpre
    refine ⟨cf.binned_of_edges_present tb hpre, ?_⟩
    intro k hk
    constructor
    · intro hne
      rw [cf.binMeans_getD tb k hk]
      have : (cf.samplesIn tb k).length ≠ 0 := by
        simpa [List.length_eq_zero] using hne
      simp [this]
    · intro p
      unfold ContFuncDiscrete.samplesIn TempBins.inBin
      rw [List.mem_filter]
      by_cases h0 : k = 0 <;> simp [h0, and_assoc]
  · with_unfolding_all decide

/-- Witness for C2 at the worked example: the boundary sample `(1, 10)`
falls in the lowest bin, which is closed on both ends. -/
theorem demcmc_C2_witness :
    ((1, 10) : ℚ × ℚ) ∈ exampleContFunc.samplesIn exampleBins 0 ↔
      (((1, 10) : ℚ × ℚ) ∈ exampleContFunc.temps.zip exampleContFunc.values ∧
        (if (0 : Nat) = 0 then exampleBins.edgeLo 0 ≤ (1 : ℚ)
         else exampleBins.edgeLo 0 < (1 : ℚ)) ∧
        (1 : ℚ) ≤ exampleBins.edgeHi 0) :=
  (((demcmc_C2_discrete_binned_is_binwise_mean.1 exampleContFunc exampleBins
    (by with_unfolding_all decide)).2 0 (by decide)).2 (1, 10))

/-- C3: `ContFuncDiscrete.binned` fails if and only if at least one edge of
the grid is absent (by exact equality) from the sample temperatures, and
the error carries exactly the edges that are missing — all of them, not
just the first. -/
theorem demcmc_C3_missing_edge_error :
    ∀ (cf : ContFuncDiscrete) (tb : TempBins),
      ((∃ e, cf.binned tb = .error e) ↔ ∃ t ∈ tb.edges, t ∉ cf.temps) ∧
      (∀ l, cf.binned tb = .error (.missingEdges l) →
        ∀ t, t ∈ l ↔ (t ∈ tb.edges ∧ t ∉ cf.temps)) := by
  intro cf tb
  have hmem : ∀ t, t ∈ cf.missing_ts tb ↔ (t ∈ tb.edges ∧ t ∉ cf.temps) := by
    intro t
    rw [ContFuncDiscrete.missing_ts, List.mem_filter]
    simp
  by_cases h : cf.missing_ts tb = []
  · have hb : cf.binned tb = .ok (cf.binMeans tb) := by
      rw [ContFuncDiscrete.binned, if_pos h]
    constructor
    · constructor
      · rintro ⟨e, he⟩
        rw [hb] at he
        exact absurd he (by simp)
      · rintro ⟨t, ht, hnt⟩
        have := (hmem t).mpr ⟨ht, hnt⟩
        rw [h] at this
        exact absurd this (List.not_mem_nil t)
    · intro l hl
      rw [hb] at hl
      exact absurd hl (by simp)
  · have hb : cf.binned tb = .error (.missingEdges (cf.missing_ts tb)) := by
      rw [ContFuncDiscrete.binned, if_neg h]
    constructor
    · constructor
      · intro _
        obtain ⟨t, ht⟩ := List.exists_mem_of_ne_nil _ h
        exact ⟨t, ((hmem t).mp ht).1, ((hmem t).mp ht).2⟩
      · intro _
        exact ⟨_, hb⟩
    · intro l hl t
      rw [hb] at hl
      simp only [Except.error.injEq, BinError.missingEdges.injEq] at hl
      rw [← hl]
      exact hmem t

/-- Witness for C3: on the worked example with edges `[1, 5/2, 5]`, the
reported missing-edge list is exactly the one missing edge `5/2`. -/
theorem demcmc_C3_witness :
    (5 / 2 : ℚ) ∈ ([5 / 2] : List ℚ) ↔
      ((5 / 2 : ℚ) ∈ exampleBinsMissing.edges ∧
        (5 / 2 : ℚ) ∉ exampleContFunc.temps) :=
  (demcmc_C3_missing_edge_error exampleContFunc exampleBinsMissing).2
    [5 / 2] (by with_unfolding_all decide) (5 / 2)

/-- C6: the `ContFuncDiscrete` constructor fails exactly when `temps` or
`values` is not one-dimensional or their sizes differ (so no object is
produced), and on success it stores the two arrays unchanged. -/
theorem demcmc_C6_ctor_validation :
    ∀ ts vs : NDQuantity,
      ((∃ e, mkContFuncDiscrete ts vs = .error e) ↔
        ¬(ts.ndim = 1 ∧ vs.ndim = 1 ∧ ts.size = vs.size)) ∧
      ∀ cf, mkContFuncDiscrete ts vs = .ok cf →
        cf.temps = ts.data ∧ cf.values = vs.data := by
  intro ts vs
  unfold mkContFuncDiscrete
  split_ifs with h1 h2 h3 <;> simp_all

/-- Witness for C6: a valid 1-D, length-matched pair of arrays is stored
unchanged. -/
theorem demcmc_C6_witness :
    (⟨[1, 2], [10, 20]⟩ : ContFuncDiscrete).temps = [1, 2] ∧
      (⟨[1, 2], [10, 20]⟩ : ContFuncDiscrete).values = [10, 20] :=
  (demcmc_C6_ctor_validation ⟨[2], [1, 2]⟩ ⟨[2], [10, 20]⟩).2
    ⟨[1, 2], [10, 20]⟩ (by with_unfolding_all decide)

/-- C7: under the edge-coincidence precondition, `binned` succeeds with one
output entry per bin in grid order, and an entry is the missing value
(pandas NaN, modelled `none`) exactly when its bin contains no sample
point. -/
theorem demcmc_C7_empty_bin_is_missing :
    ∀ (cf : ContFuncDiscrete) (tb : TempBins),
      (∀ e ∈ tb.edges, e ∈ cf.temps) →
      cf.binned tb = .ok (cf.binMeans tb) ∧
      (cf.binMeans tb).length = tb.numBins ∧
      ∀ k, k < tb.numBins →
        ((cf.binMeans tb).getD k none = none ↔ cf.samplesIn tb k = []) := by
  intro cf tb hpre
  refine ⟨cf.binned_of_edges_present tb hpre, cf.binMeans_length tb, ?_⟩
  intro k hk
  rw [cf.binMeans_getD tb k hk]
  by_cases h : (cf.samplesIn tb k).length = 0
  · simp [h, List.length_eq_zero.mp h]
  · have hne : cf.samplesIn tb k ≠ [] := by
      intro hc
      exact h (by simp [hc])
    simp [h, hne]

/-- Witness for C7 at the worked example: no bin of `[1,3,5]` is empty, and
indeed no output entry is missing. -/
theorem demcmc_C7_witness :
    exampleContFunc.binned exampleBins =
        .ok (exampleContFunc.binMeans exampleBins) ∧
      (exampleContFunc.binMeans exampleBins).length = exampleBins.numBins ∧
      ∀ k, k < exampleBins.numBins →
        ((exampleContFunc.binMeans exampleBins).getD k none = none ↔
          exampleContFunc.samplesIn exampleBins k = []) :=
  demcmc_C7_empty_bin_is_missing exampleContFunc exampleBins
    (by with_unfolding_all decide)

/-- Helper: for a valid bin index both edges of the bin belong to the edge
list. -/
theorem TempBins.edge_mem (tb : TempBins) (k : Nat) (hk : k < tb.numBins) :
    tb.edgeLo k ∈ tb.edges ∧ tb.edgeHi k ∈ tb.edges := by
  have h1 : k < tb.edges.length := by
    unfold TempBins.numBins at hk; omega
  have h2 : k + 1 < tb.edges.length := by
    unfold TempBins.numBins at hk; omega
  constructor
  · rw [TempBins.edgeLo, List.getD_eq_getElem _ _ h1]
    exact List.getElem_mem _
  · rw [TempBins.edgeHi, List.getD_eq_getElem _ _ h2]
    exact List.getElem_mem _

/-- Helper: a sample strictly below every edge or strictly above every edge
falls in no bin. -/
theorem TempBins.inBin_eq_false_of_out_of_range (tb : TempBins) (t : ℚ)
    (ht : (∀ e ∈ tb.edges, t < e) ∨ (∀ e ∈ tb.edges, e < t))
    (k : Nat) (hk : k < tb.numBins) : tb.inBin k t = false := by
  obtain ⟨hlo, hhi⟩ := tb.edge_mem k hk
  unfold TempBins.inBin
  rcases ht with h | h
  · have h1 : t < tb.edgeLo k := h _ hlo
    have h2 : ¬ tb.edgeLo k ≤ t := not_le.mpr h1
    have h3 : ¬ tb.edgeLo k < t := by linarith
    by_cases h0 : k = 0
    · subst h0
      simp [h2]
    · simp [h0, h3]
  · have h1 : tb.edgeHi k < t := h _ hhi
    have h2 : ¬ t ≤ tb.edgeHi k := not_le.mpr h1
    by_cases h0 : k = 0
    · subst h0
      simp [h2]
    · simp [h0, h2]

/-- C10: a sample point lying strictly below every edge (in particular
below the lowest) or strictly above every edge (above the highest), added
with its value to a discrete contribution function, is excluded from every
bin's mean: `binned` is unchanged. -/
theorem demcmc_C10_out_of_range_samples_excluded :
    ∀ (cf : ContFuncDiscrete) (tb : TempBins) (t v : ℚ),
      ((∀ e ∈ tb.edges, t < e) ∨ (∀ e ∈ tb.edges, e < t)) →
      ContFuncDiscrete.binned ⟨t :: cf.temps, v :: cf.values⟩ tb =
        cf.binned tb := by
  intro cf tb t v ht
  have htne : ∀ e ∈ tb.edges, e ≠ t := by
    intro e he
    rcases ht with h | h
    · exact fun hc => absurd (h e he) (by rw [hc]; exact lt_irrefl t)
    · exact fun hc => absurd (h e he) (by rw [hc]; exact lt_irrefl t)
  have hmiss : ContFuncDiscrete.missing_ts ⟨t :: cf.temps, v :: cf.values⟩ tb
      = cf.missing_ts tb := by
    unfold ContFuncDiscrete.missing_ts
    refine List.filter_congr ?_
    intro e he
    simp [List.mem_cons, htne e he]
  have hsamp : ∀ k, k < tb.numBins →
      ContFuncDiscrete.samplesIn ⟨t :: cf.temps, v :: cf.values⟩ tb k =
        cf.samplesIn tb k := by
    intro k hk
    unfold ContFuncDiscrete.samplesIn
    simp only [List.zip_cons_cons, List.filter_cons]
    rw [tb.inBin_eq_false_of_out_of_range t ht k hk]
    simp
  have hmeans : ContFuncDiscrete.binMeans ⟨t :: cf.temps, v :: cf.values⟩ tb
      = cf.binMeans tb := by
    unfold ContFuncDiscrete.binMeans
    refine List.map_congr_left ?_
    intro k hk
    rw [hsamp k (List.mem_range.mp hk)]
  unfold ContFuncDiscrete.binned
  rw [hmiss, hmeans]

/-- Witness for C10: appending the out-of-range sample `(6, 60)` K (above
the highest edge `5`) to the worked example leaves `binned` unchanged. -/
theorem demcmc_C10_witness :
    ContFuncDiscrete.binned
        ⟨6 :: exampleContFunc.temps, 60 :: exampleContFunc.values⟩
        exampleBins =
      exampleContFunc.binned exampleBins :=
  demcmc_C10_out_of_range_samples_excluded exampleContFunc exampleBins 6 60
    (Or.inr (by with_unfolding_all decide))

/-- Helper: the Gaussian sample list has one entry per bin. -/
theorem ContFuncGaussian.binned_length (g : ContFuncGaussian)
    (tb : TempBins) : (g.binned tb).length = tb.numBins := by
  simp [ContFuncGaussian.binned, TempBins.bin_centers]

/-- Helper: entry `k` of the Gaussian sample list is the profile at the
grid's `k`-th bin center. -/
theorem ContFuncGaussian.binned_getD (g : ContFuncGaussian)
    (tb : TempBins) (k : Nat) (hk : k < tb.numBins) :
    (g.binned tb).getD k 0 = g.evalAt (tb.bin_centers.getD k 0) := by
  have hc : k < tb.bin_centers.length := by
    simpa [TempBins.bin_centers] using hk
  have hb : k < (g.binned tb).length := by
    rw [g.binned_length tb]; exact hk
  rw [List.getD_eq_getElem _ _ hb, List.getD_eq_getElem _ _ hc]
  simp [ContFuncGaussian.binned]

/-- Helper: the megakelvin conversions cancel, so the profile depends only
on `(center - c) / width`. -/
theorem ContFuncGaussian.evalAt_eq (g : ContFuncGaussian) (c : ℚ) :
    g.evalAt c =
      Real.exp (-(((g.center - c) / g.width : ℚ) : ℝ) ^ 2) * 1000000 := by
  have h : (g.center / 1000000 - c / 1000000) / (g.width / 1000000)
      = (g.center - c) / g.width := by
    rw [div_sub_div_same]
    rcases eq_or_ne g.width 0 with hw | hw
    · simp [hw]
    · field_simp
  rw [ContFuncGaussian.evalAt, ContFuncGaussian.center_MK,
    ContFuncGaussian.width_MK, h]

/-- Helper: at the center the profile attains `1e6`. -/
theorem ContFuncGaussian.evalAt_center (g : ContFuncGaussian) :
    g.evalAt g.center = 1000000 := by
  rw [g.evalAt_eq]
  simp

/-- Helper: the profile never exceeds `1e6`. -/
theorem ContFuncGaussian.evalAt_le (g : ContFuncGaussian) (c : ℚ) :
    g.evalAt c ≤ 1000000 := by
  rw [g.evalAt_eq]
  have h : Real.exp (-(((g.center - c) / g.width : ℚ) : ℝ) ^ 2) ≤ 1 :=
    Real.exp_le_one_iff.mpr (neg_nonpos.mpr (sq_nonneg _))
  nlinarith

/-- Helper: for positive width the profile is strictly smaller farther from
the center. -/
theorem ContFuncGaussian.evalAt_lt (g : ContFuncGaussian)
    (hw : 0 < g.width) (c1 c2 : ℚ)
    (h : |c1 - g.center| < |c2 - g.center|) :
    g.evalAt c2 < g.evalAt c1 := by
  rw [g.evalAt_eq, g.evalAt_eq]
  have habs : |(g.center - c1) / g.width| < |(g.center - c2) / g.width| := by
    rw [abs_div, abs_div, abs_of_pos hw]
    rw [div_lt_div_iff_of_pos_right hw]
    rw [abs_sub_comm g.center c1, abs_sub_comm g.center c2]
    exact h
  have hsq : ((g.center - c1) / g.width) ^ 2 <
      ((g.center - c2) / g.width) ^ 2 := by
    rw [← sq_abs ((g.center - c1) / g.width),
      ← sq_abs ((g.center - c2) / g.width)]
    exact pow_lt_pow_left₀ habs (abs_nonneg _) two_ne_zero
  have hsqR : (((g.center - c1) / g.width : ℚ) : ℝ) ^ 2 <
      (((g.center - c2) / g.width : ℚ) : ℝ) ^ 2 := by
    exact_mod_cast hsq
  have := Real.exp_lt_exp.mpr (neg_lt_neg hsqR)
  nlinarith

/-- Helper: the profile is symmetric about the center. -/
theorem ContFuncGaussian.evalAt_symm (g : ContFuncGaussian) (c1 c2 : ℚ)
    (h : |c1 - g.center| = |c2 - g.center|) :
    g.evalAt c1 = g.evalAt c2 := by
  rw [g.evalAt_eq, g.evalAt_eq]
  have hsq : (g.center - c1) ^ 2 = (g.center - c2) ^ 2 := by
    have h1 : (g.center - c1) ^ 2 = |c1 - g.center| ^ 2 := by
      rw [sq_abs]; ring
    have h2 : (g.center - c2) ^ 2 = |c2 - g.center| ^ 2 := by
      rw [sq_abs]; ring
    rw [h1, h2, h]
  have : ((g.center - c1) / g.width) ^ 2 =
      ((g.center - c2) / g.width) ^ 2 := by
    rw [div_pow, div_pow, hsq]
  rw [show (((g.center - c1) / g.width : ℚ) : ℝ) ^ 2 =
      (((g.center - c2) / g.width : ℚ) : ℝ) ^ 2 by exact_mod_cast this]

/-- C4: for a Gaussian contribution function with positive width, the bin
whose center equals the Gaussian's center gets the maximum value `1e6`
(no other bin exceeds it), values strictly decrease as the bin center's
distance from the Gaussian center grows, and two bin centers equidistant
from the center get equal values. -/
theorem demcmc_C4_gaussian_peak_monotone_symmetric :
    ∀ (g : ContFuncGaussian) (tb : TempBins), 0 < g.width →
      (∀ k, k < tb.numBins → tb.bin_centers.getD k 0 = g.center →
        (g.binned tb).getD k 0 = 1000000) ∧
      (∀ k, k < tb.numBins → (g.binned tb).getD k 0 ≤ 1000000) ∧
      (∀ i j, i < tb.numBins → j < tb.numBins →
        |tb.bin_centers.getD i 0 - g.center| <
          |tb.bin_centers.getD j 0 - g.center| →
        (g.binned tb).getD j 0 < (g.binned tb).getD i 0) ∧
      (∀ i j, i < tb.numBins → j < tb.numBins →
        |tb.bin_centers.getD i 0 - g.center| =
          |tb.bin_centers.getD j 0 - g.center| →
        (g.binned tb).getD i 0 = (g.binned tb).getD j 0) := by
  intro g tb hw
  refine ⟨?_, ?_, ?_, ?_⟩
  · intro k hk hc
    rw [g.binned_getD tb k hk, hc]
    exact g.evalAt_center
  · intro k hk
    rw [g.binned_getD tb k hk]
    exact g.evalAt_le _
  · intro i j hi hj hlt
    rw [g.binned_getD tb i hi, g.binned_getD tb j hj]
    exact g.evalAt_lt hw _ _ hlt
  · intro i j hi hj heq
    rw [g.binned_getD tb i hi, g.binned_getD tb j hj]
    exact g.evalAt_symm _ _ heq

/-- Witness for C4: on the single-bin grid `[1, 3]` the bin center is the
Gaussian center 2, and the output value there is `1e6`. -/
theorem demcmc_C4_witness :
    (exampleGaussian.binned exampleGaussianBins).getD 0 0 = 1000000 :=
  (demcmc_C4_gaussian_peak_monotone_symmetric exampleGaussian
      exampleGaussianBins (by norm_num [exampleGaussian])).1 0 (by decide)
    (by with_unfolding_all decide)

/-- C5: `ContFuncGaussian.binned` never fails — through the polymorphic
dispatch it always returns a value array of dimension cm⁵/K — and its
length equals the grid's bin count, entry `k` being the profile at the
grid's `k`-th bin center. -/
theorem demcmc_C5_gaussian_binned_total :
    ∀ (g : ContFuncGaussian) (tb : TempBins),
      ContFunc.binned (.gaussian g) tb =
        .ok ⟨cm5_per_K, (g.binned tb).map some⟩ ∧
      (g.binned tb).length = tb.numBins ∧
      ∀ k, k < tb.numBins →
        (g.binned tb).getD k 0 = g.evalAt (tb.bin_centers.getD k 0) :=
  fun g tb =>
    ⟨rfl, g.binned_length tb, fun k hk => g.binned_getD tb k hk⟩

/-- Witness for C5 on the single-bin grid: the one output entry is the
profile at the bin center. -/
theorem demcmc_C5_witness :
    (exampleGaussian.binned exampleGaussianBins).getD 0 0 =
      exampleGaussian.evalAt
        (exampleGaussianBins.bin_centers.getD 0 0) :=
  (demcmc_C5_gaussian_binned_total exampleGaussian
    exampleGaussianBins).2.2 0 (by decide)

/-- Helper: the widths list has one entry per bin. -/
theorem TempBins.bin_widths_length (tb : TempBins) :
    tb.bin_widths.length = tb.numBins := by
  simp [TempBins.bin_widths]

/-- Helper: NaN-propagating summation of defined per-bin products is
ordinary summation. -/
theorem optSum_zipWith3_some (f : ℝ → ℝ → ℚ → ℝ) :
    ∀ (cs ds : List ℝ) (ws : List ℚ),
      optSum (List.zipWith3 (fun c d w => Option.map (fun cv => f cv d w) c)
        (cs.map some) ds ws) =
      some ((List.zipWith3 f cs ds ws).sum)
  | [], ds, ws => by cases ds <;> cases ws <;> simp [optSum, List.zipWith3]
  | c :: cs, [], ws => by simp [optSum, List.zipWith3]
  | c :: cs, d :: ds, [] => by simp [optSum, List.zipWith3]
  | c :: cs, d :: ds, w :: ws => by
      simp [List.zipWith3, optSum, optSum_zipWith3_some f cs ds ws]

/-- Helper: `zipWith3` over three constant lists of the same length. -/
theorem zipWith3_replicate (f : ℝ → ℝ → ℚ → ℝ) (n : Nat) (a d : ℝ)
    (w : ℚ) :
    List.zipWith3 f (List.replicate n a) (List.replicate n d)
      (List.replicate n w) = List.replicate n (f a d w) := by
  induction n with
  | zero => simp [List.zipWith3]
  | succ m ih => simp [List.replicate_succ, List.zipWith3, ih]

/-- C1: when the contribution function bins successfully (with no missing
per-bin value), the lengths agree and the units cancel, `I_pred` is the
sum over all bins of (contribution value × DEM value × bin width); in
particular with a constant contribution value `gv`, uniform DEM value `dv`
and uniform width `wv` over `n` bins, it equals `n × gv × dv × wv` and `n`
is the grid's bin count. -/
theorem demcmc_C1_I_pred_sum_of_products :
    (∀ (line : EmissionLine) (dem : BinnedDEM) (cd : Dim) (cs : List ℝ),
      line.cont_func.binned dem.temp_bins = .ok ⟨cd, cs.map some⟩ →
      cs.length = dem.values.length →
      dem.values.length = dem.temp_bins.bin_widths.length →
      (cd.add dem.values_dim).add dim_K = dimensionless →
      line.I_pred dem = .ok (some ((List.zipWith3
        (fun (c d : ℝ) (w : ℚ) => c * d * (w : ℝ)) cs dem.values
        dem.temp_bins.bin_widths).sum))) ∧
    (∀ (line : EmissionLine) (dem : BinnedDEM) (cd : Dim) (n : Nat)
      (gv dv : ℝ) (wv : ℚ),
      line.cont_func.binned dem.temp_bins =
        .ok ⟨cd, (List.replicate n gv).map some⟩ →
      dem.values = List.replicate n dv →
      dem.temp_bins.bin_widths = List.replicate n wv →
      (cd.add dem.values_dim).add dim_K = dimensionless →
      n = dem.temp_bins.numBins ∧
      line.I_pred dem = .ok (some ((n : ℝ) * gv * dv * (wv : ℝ)))) := by
  have general : ∀ (line : EmissionLine) (dem : BinnedDEM) (cd : Dim)
      (cs : List ℝ),
      line.cont_func.binned dem.temp_bins = .ok ⟨cd, cs.map some⟩ →
      cs.length = dem.values.length →
      dem.values.length = dem.temp_bins.bin_widths.length →
      (cd.add dem.values_dim).add dim_K = dimensionless →
      line.I_pred dem = .ok (some ((List.zipWith3
        (fun (c d : ℝ) (w : ℚ) => c * d * (w : ℝ)) cs dem.values
        dem.temp_bins.bin_widths).sum)) := by
    intro line dem cd cs hb h1 h2 hd
    unfold EmissionLine.I_pred
    simp only [hb]
    rw [if_pos ⟨by simpa using h1, h2⟩, if_pos hd,
      optSum_zipWith3_some (fun (c d : ℝ) (w : ℚ) => c * d * (w : ℝ)) cs
        dem.values dem.temp_bins.bin_widths]
  refine ⟨general, ?_⟩
  intro line dem cd n gv dv wv hb hv hw hd
  have hwl : dem.temp_bins.bin_widths.length = dem.temp_bins.numBins :=
    dem.temp_bins.bin_widths_length
  have hn : n = dem.temp_bins.numBins := by
    rw [hw] at hwl
    simpa using hwl
  have h1 : (List.replicate n gv).length = dem.values.length := by
    rw [hv]
    simp
  have h2 : dem.values.length = dem.temp_bins.bin_widths.length := by
    rw [hv, hw]
    simp
  have hI := general line dem cd (List.replicate n gv) hb h1 h2 hd
  rw [hv, hw, zipWith3_replicate, List.sum_replicate] at hI
  refine ⟨hn, ?_⟩
  rw [hI]
  congr 2
  rw [nsmul_eq_mul]
  ring

/-- Witness for C1: the uniform single-bin example, with constant
contribution value 5 cm⁵/K, DEM value 2 cm⁻⁵ and width 1 K, predicts
intensity `1 × 5 × 2 × 1`. -/
theorem demcmc_C1_witness :
    (1 : Nat) = uniformDEM.temp_bins.numBins ∧
      uniformLine.I_pred uniformDEM =
        .ok (some (((1 : Nat) : ℝ) * ((5 : ℚ) : ℝ) * 2 * ((1 : ℚ) : ℝ))) :=
  demcmc_C1_I_pred_sum_of_products.2 uniformLine uniformDEM cm5_per_K 1
    ((5 : ℚ) : ℝ) 2 1 (by with_unfolding_all rfl) rfl
    (by with_unfolding_all decide) (by decide)

/-- C8: `I_pred` propagates a contribution-function failure unchanged;
otherwise (lengths agreeing) it fails exactly when the product's physical
dimensions do not reduce to dimensionless, and returns a plain scalar when
they do. -/
theorem demcmc_C8_I_pred_error_paths :
    ∀ (line : EmissionLine) (dem : BinnedDEM),
      (∀ e, line.cont_func.binned dem.temp_bins = .error e →
        line.I_pred dem = .error (.contFuncFailure e)) ∧
      (∀ q, line.cont_func.binned dem.temp_bins = .ok q →
        q.vals.length = dem.values.length →
        dem.values.length = dem.temp_bins.bin_widths.length →
        (((q.dim.add dem.values_dim).add dim_K ≠ dimensionless →
          line.I_pred dem = .error
            (.notDimensionless ((q.dim.add dem.values_dim).add dim_K))) ∧
        ((q.dim.add dem.values_dim).add dim_K = dimensionless →
          ∃ r, line.I_pred dem = .ok r))) := by
  intro line dem
  constructor
  · intro e he
    unfold EmissionLine.I_pred
    simp only [he]
  · intro q hq hl1 hl2
    constructor
    · intro hne
      unfold EmissionLine.I_pred
      simp only [hq]
      rw [if_pos ⟨hl1, hl2⟩, if_neg hne]
    · intro heq
      unfold EmissionLine.I_pred
      simp only [hq]
      rw [if_pos ⟨hl1, hl2⟩, if_pos heq]
      exact ⟨_, rfl⟩

/-- Witness for C8: with dimensionless DEM values the product has
dimension cm⁵ (not dimensionless), and `I_pred` fails with that
dimension. -/
theorem demcmc_C8_witness :
    uniformLine.I_pred badUnitDEM = .error
      (.notDimensionless ((cm5_per_K.add badUnitDEM.values_dim).add dim_K)) :=
  ((demcmc_C8_I_pred_error_paths uniformLine badUnitDEM).2
    ⟨cm5_per_K, [some ((5 : ℚ) : ℝ)]⟩ (by with_unfolding_all rfl)
    (by decide) (by decide)).1 (by decide)

/-- C9: `binned` and `I_pred` are pure: a call returns its result together
with an unchanged instance, so a repeated call with identical input on the
returned instance yields an identical result. -/
theorem demcmc_C9_binned_I_pred_pure :
    ∀ (cf : ContFunc) (tb : TempBins) (line : EmissionLine)
      (dem : BinnedDEM),
      (cf.binnedCall tb).2 = cf ∧
      ((cf.binnedCall tb).2.binnedCall tb).1 = (cf.binnedCall tb).1 ∧
      (line.I_predCall dem).2 = line ∧
      ((line.I_predCall dem).2.I_predCall dem).1 = (line.I_predCall dem).1 :=
  fun _ _ _ _ => ⟨rfl, rfl, rfl, rfl⟩
